import Mathlib

/-!
# Verification of the nooda chart time-windowing and aggregation engine

Shallow embedding of `nooda/chart/ops.py` and `nooda/chart/agg.py`.

Timestamps are modelled as proleptic-Gregorian calendar dates (as used by
Python's `datetime`, year ≥ 1) together with a seconds-of-day field.  The
model is timezone-naive: the source threads a `tzinfo` value through
unchanged and never mixes aware and naive timestamps within a computation,
so dropping the field does not change any of the verified behaviour.

`timedelta` / `relativedelta(days=…)` arithmetic is modelled through the
date-to-ordinal bijection (`toOrdinal` / `fromOrdinal`, Python's
`date.toordinal` / `date.fromordinal`); `relativedelta(months=…)` is
calendar month arithmetic with end-of-month clamping, as in `dateutil`.
-/

namespace Nooda

set_option maxRecDepth 100000

/-- Gregorian leap-year test. -/
def isLeap (y : Nat) : Bool :=
  (y % 4 == 0 && y % 100 != 0) || y % 400 == 0

/-- Number of days in month `m` (1..12) of year `y`. -/
def daysInMonth (y m : Nat) : Nat :=
  if m = 2 then (if isLeap y then 29 else 28)
  else if m = 4 ∨ m = 6 ∨ m = 9 ∨ m = 11 then 30
  else 31

/-- Number of days in the months strictly before month `m` of year `y`
(months are 1-based; `daysBeforeMonth y 1 = 0`). -/
def daysBeforeMonth (y : Nat) : Nat → Nat
  | 0 => 0
  | 1 => 0
  | m + 1 => daysBeforeMonth y m + daysInMonth y m

/-- Number of days in year `y`. -/
def daysInYear (y : Nat) : Nat :=
  if isLeap y then 366 else 365

/-- Number of days in the years 1, 2, …, y-1 (i.e. the ordinal of Jan 1 of
year `y`, minus one). -/
def daysBeforeYear (y : Nat) : Nat :=
  365 * (y - 1) + (y - 1) / 4 + (y - 1) / 400 - (y - 1) / 100

/-- A calendar date.  Valid dates (see `Date.Valid`) correspond exactly to
Python `datetime.date` values. -/
structure Date where
  year : Nat
  month : Nat
  day : Nat
  deriving DecidableEq, Repr

/-- Validity of a date: Python's `datetime.date` invariant (MINYEAR = 1). -/
def Date.Valid (d : Date) : Prop :=
  1 ≤ d.year ∧ 1 ≤ d.month ∧ d.month ≤ 12 ∧ 1 ≤ d.day ∧ d.day ≤ daysInMonth d.year d.month

instance (d : Date) : Decidable d.Valid := by
  unfold Date.Valid; infer_instance

/-- Python's `date.toordinal`: 0001-01-01 is day 1. -/
def toOrdinal (d : Date) : Nat :=
  daysBeforeYear d.year + daysBeforeMonth d.year d.month + d.day

/-- Walk the months of year `y` looking for the month containing day-of-year
offset `r` (0-based); returns the (month, day) pair.  `fuel` bounds the
number of steps (11 suffices starting from month 1). -/
def monthWalk (y : Nat) : Nat → Nat → Nat → Nat × Nat
  | 0, m, r => (m, r + 1)
  | fuel + 1, m, r =>
    if r < daysInMonth y m then (m, r + 1)
    else monthWalk y fuel (m + 1) (r - daysInMonth y m)

/-- Walk years starting at `y` looking for the year containing day offset
`r` (0-based from Jan 1 of year `y`); `fuel` bounds the number of steps. -/
def yearWalk : Nat → Nat → Nat → Date
  | 0, y, r => let p := monthWalk y 11 1 r; ⟨y, p.1, p.2⟩
  | fuel + 1, y, r =>
    if r < daysInYear y then let p := monthWalk y 11 1 r; ⟨y, p.1, p.2⟩
    else yearWalk fuel (y + 1) (r - daysInYear y)

/-- Python's `date.fromordinal` (inverse of `toOrdinal` on valid inputs). -/
def fromOrdinal (n : Nat) : Date :=
  yearWalk n 1 (n - 1)

/-- Python's `date.weekday`: Monday = 0, …, Sunday = 6.
0001-01-01 (ordinal 1) is a Monday. -/
def weekday (d : Date) : Nat :=
  (toOrdinal d + 6) % 7

/-- Lexicographic order on dates; agrees with Python's `date.__lt__`. -/
def Date.lt (a b : Date) : Prop :=
  a.year < b.year ∨
    (a.year = b.year ∧ (a.month < b.month ∨ (a.month = b.month ∧ a.day < b.day)))

instance (a b : Date) : Decidable (Date.lt a b) := by
  unfold Date.lt; infer_instance

/-- A timestamp: a date plus seconds since midnight (modelling Python's
hour/minute/second fields; the model is timezone-naive, see module header). -/
structure DateTime where
  date : Date
  sec : Nat
  deriving DecidableEq, Repr

def DateTime.Valid (t : DateTime) : Prop :=
  t.date.Valid ∧ t.sec < 86400

instance (t : DateTime) : Decidable t.Valid := by
  unfold DateTime.Valid; infer_instance

/-- Seconds since 0001-01-01 00:00 minus one day; linearizes valid
timestamps. -/
def toSecs (t : DateTime) : Nat :=
  86400 * toOrdinal t.date + t.sec

/-- Python `datetime.__lt__`: lexicographic on (date, time of day). -/
def DateTime.lt (a b : DateTime) : Prop :=
  Date.lt a.date b.date ∨ (a.date = b.date ∧ a.sec < b.sec)

instance (a b : DateTime) : Decidable (DateTime.lt a b) := by
  unfold DateTime.lt; infer_instance

def DateTime.le (a b : DateTime) : Prop :=
  DateTime.lt a b ∨ a = b

instance (a b : DateTime) : Decidable (DateTime.le a b) := by
  unfold DateTime.le; infer_instance


/-- `date ± timedelta(days=k)`, via the ordinal bijection.  (Python raises
`OverflowError` when the result leaves the calendar; theorems hypothesise
that it does not.) -/
def addDaysD (d : Date) (k : Int) : Date :=
  fromOrdinal ((toOrdinal d : Int) + k).toNat

/-- `datetime ± relativedelta(days=k)`: shifts the date, keeps the clock time. -/
def addDaysT (t : DateTime) (k : Int) : DateTime :=
  ⟨addDaysD t.date k, t.sec⟩

/-- Zero-based total month count of a date shifted by `k` months. -/
def monthsTot (d : Date) (k : Int) : Int :=
  12 * (d.year : Int) + ((d.month : Int) - 1) + k

/-- `date ± relativedelta(months=k)` (dateutil): calendar month arithmetic
with floor divmod into years and end-of-month day clamping.  (Int `/`/`%`
in Lean is Euclidean division, which for the positive divisor 12 agrees
with Python's floor divmod.) -/
def addMonthsD (d : Date) (k : Int) : Date :=
  ⟨(monthsTot d k / 12).toNat,
   (monthsTot d k % 12).toNat + 1,
   min d.day (daysInMonth (monthsTot d k / 12).toNat
     ((monthsTot d k % 12).toNat + 1))⟩

/-- `datetime ± relativedelta(months=k)`: shifts the date, keeps the clock
time. -/
def addMonthsT (t : DateTime) (k : Int) : DateTime :=
  ⟨addMonthsD t.date k, t.sec⟩


end Nooda

namespace Nooda

set_option maxRecDepth 100000

/-! ## The chart engine of `nooda/chart/ops.py` and `nooda/chart/agg.py`

A raw table is a list of rows, each a timestamp (the index) paired with an
association list from column name to an optional rational value (`none`
models a missing/NaN entry).  Aggregation results are modelled by `PFloat`,
IEEE-754 doubles restricted to the values the verified code paths can
produce: exact rationals, the two infinities and NaN (rounding plays no
role in any verified claim). -/

/-- A float-valued aggregation result. -/
inductive PFloat where
  | num (q : ℚ)
  | inf
  | ninf
  | nan
  deriving DecidableEq, Repr

/-- One row's column values.  Observations are modelled as integers (the
aggregations below cast to `ℚ` exactly where the source divides); every
verified claim is insensitive to fractional inputs. -/
abbrev Rows := List (String × Option Int)

/-- A raw time-indexed table. -/
abbrev Table := List (DateTime × Rows)

/-- Value of column `c` in a row (a column absent from the row is missing). -/
def getVal (r : Rows) (c : String) : Option Int :=
  (r.lookup c).join

/-- `df[c].sum()` over a bucket: pandas sums with `skipna=True`, and an
all-missing column sums to 0. -/
def sumCol (rows : List (DateTime × Rows)) (c : String) : Int :=
  (rows.filterMap (fun r => getVal r.2 c)).sum

/-- `agg.ratio(num, denom)`: `row[num].sum() / row[denom].sum()` with
IEEE-754 float division: x/0 is NaN for x = 0 and ±infinity otherwise
(numpy emits a RuntimeWarning, not an exception). -/
def ratio (cn cd : String) (rows : List (DateTime × Rows)) : PFloat :=
  if sumCol rows cd = 0 then
    if sumCol rows cn = 0 then PFloat.nan
    else if 0 < sumCol rows cn then PFloat.inf
    else PFloat.ninf
  else PFloat.num ((sumCol rows cn : ℚ) / (sumCol rows cd : ℚ))

/-- Maximum of a list of timestamps (pandas `Index.max`; `none` on empty). -/
def maxD : List DateTime → Option DateTime
  | [] => none
  | x :: xs =>
    some (match maxD xs with
      | none => x
      | some m => if toSecs x < toSecs m then m else x)

/-- Minimum of a list of timestamps (pandas `Index.min`; `none` on empty). -/
def minD : List DateTime → Option DateTime
  | [] => none
  | x :: xs =>
    some (match minD xs with
      | none => x
      | some m => if toSecs m < toSecs x then m else x)

/-- `(a - b).days` for two timestamps: pandas/Python `timedelta.days`
truncates toward minus infinity (floor). -/
def diffDays (a b : DateTime) : Int :=
  ((toSecs a : Int) - (toSecs b : Int)) / 86400

/-- `agg.avg_daily` on one column of a bucket: drop missing rows; if none
remain the result is missing (Python returns `None`, which the pandas
pipeline treats as NaN); otherwise sum of the values divided by the
inclusive day span of the valid rows. -/
def avg_daily (xs : List (DateTime × Option Int)) : PFloat :=
  match maxD ((xs.filterMap (fun p => p.2.map (fun v => (p.1, v)))).map (fun p => p.1)),
        minD ((xs.filterMap (fun p => p.2.map (fun v => (p.1, v)))).map (fun p => p.1)) with
  | some mx, some mn =>
    PFloat.num (((((xs.filterMap (fun p => p.2.map (fun v => (p.1, v)))).map (fun p => p.2)).sum : Int) : ℚ) /
      ((diffDays mx mn + 1 : Int) : ℚ))
  | _, _ => PFloat.nan

/-- `np.sum` as used by the auto-built series (single-column frames,
`skipna` summation). -/
def npSum (rows : List (DateTime × Rows)) : PFloat :=
  PFloat.num ((((rows.map (fun r => (r.2.filterMap (fun p => p.2)).sum)).sum : Int) : ℚ))

/-- `agg.avg_daily` as a series aggregation over a single-column
sub-table (the DataFrame case of `avg_daily`, which asserts exactly one
column before filtering the non-missing rows). -/
def avgDailyAgg (c : String) (rows : List (DateTime × Rows)) : PFloat :=
  avg_daily (rows.map (fun r => (r.1, getVal r.2 c)))

/-- A `dateutil.relativedelta` restricted to the fields the engine uses;
applied months-first, then days, as dateutil does. -/
structure Rel where
  months : Int
  days : Int
  deriving DecidableEq, Repr

def applyRel (r : Rel) (t : DateTime) : DateTime :=
  addDaysT (addMonthsT t r.months) r.days

/-- `ops.Series` (presentation hints omitted). -/
structure Series where
  columns : List String
  label : String
  agg : List (DateTime × Rows) → PFloat
  offset : Option Rel

/-- `Series.__init__`: a lone column name is wrapped into a one-element
list, a list is stored as passed. -/
def mkSeries (columns : Sum (List String) String) (label : String)
    (agg : List (DateTime × Rows) → PFloat) (offset : Option Rel) : Series :=
  { columns :=
      match columns with
      | Sum.inl l => l
      | Sum.inr s => [s]
    label := label
    agg := agg
    offset := offset }

/-- `ops.Plot` (panel) configuration. -/
structure Plot where
  series : List Series
  increments : Nat
  rangeCols : Option (List String)

/-- `Plot.__init__`: asserts at construction that at least one series has
no offset; `none` models the `AssertionError`. -/
def mkPlot (series : List Series) (increments : Nat)
    (rangeCols : Option (List String)) : Option Plot :=
  if 0 < (series.filter (fun s => s.offset.isNone)).length then
    some ⟨series, increments, rangeCols⟩
  else none

/-- `ops.Bounds`: a half-open `[earliest, latest)` window. -/
structure Bounds where
  earliest : DateTime
  latest : DateTime
  deriving DecidableEq, Repr

/-- `ops.time_window`: row mask `earliest <= dt < latest`. -/
def timeWindow (b : Bounds) (t : DateTime) : Bool :=
  decide (DateTime.le b.earliest t) && decide (DateTime.lt t b.latest)

/-- The columns `Plot._max_dt` looks at: the `range_columns` override, or
the union of all series' columns. -/
def relevantCols (p : Plot) : List String :=
  match p.rangeCols with
  | some cols => cols
  | none => (p.series.map (fun s => s.columns)).flatten

/-- `Plot._max_dt`: maximum index among rows with at least one non-missing
value in the relevant columns. -/
def maxDt (p : Plot) (tbl : Table) : Option DateTime :=
  maxD ((tbl.filter (fun r => (relevantCols p).any (fun c => (getVal r.2 c).isSome))).map
    (fun r => r.1))

/-- `Daily._clamp`: midnight of the same calendar day (timezone threaded
through unchanged in the source). -/
def dailyClamp (t : DateTime) : DateTime :=
  ⟨⟨t.date.year, t.date.month, t.date.day⟩, 0⟩

/-- `Weekly._clamp`: midnight of the day, minus `relativedelta(days=weekday)`. -/
def weeklyClamp (t : DateTime) : DateTime :=
  ⟨addDaysD ⟨t.date.year, t.date.month, t.date.day⟩
    (-(weekday ⟨t.date.year, t.date.month, t.date.day⟩ : Int)), 0⟩

/-- `Monthly._clamp`: midnight of the 1st of the same month. -/
def monthlyClamp (t : DateTime) : DateTime :=
  ⟨⟨t.date.year, t.date.month, 1⟩, 0⟩

/-- `Daily._bounds`: `latest` = midnight of the reference day (not
advanced), `earliest` = `latest - relativedelta(days=days)`. -/
def dailyBounds (p : Plot) (days : Nat) (tbl : Table) : Option Bounds :=
  (maxDt p tbl).map (fun mx =>
    { earliest := addDaysT ⟨⟨mx.date.year, mx.date.month, mx.date.day⟩, 0⟩ (-(days : Int))
      latest := ⟨⟨mx.date.year, mx.date.month, mx.date.day⟩, 0⟩ })

/-- `Weekly._bounds`: `latest` = clamp of the reference day plus one week,
`earliest` = `latest - relativedelta(weeks=weeks)`. -/
def weeklyBounds (p : Plot) (weeks : Nat) (tbl : Table) : Option Bounds :=
  (maxDt p tbl).map (fun mx =>
    { earliest := addDaysT (addDaysT (weeklyClamp ⟨⟨mx.date.year, mx.date.month, mx.date.day⟩, 0⟩) 7)
        (-(7 * weeks : Int))
      latest := addDaysT (weeklyClamp ⟨⟨mx.date.year, mx.date.month, mx.date.day⟩, 0⟩) 7 })

/-- `Monthly._bounds`: `latest` = 1st of the reference month plus one
month, `earliest` = `latest - relativedelta(months=months)`. -/
def monthlyBounds (p : Plot) (months : Nat) (tbl : Table) : Option Bounds :=
  (maxDt p tbl).map (fun mx =>
    { earliest := addMonthsT (addMonthsT ⟨⟨mx.date.year, mx.date.month, 1⟩, 0⟩ 1) (-(months : Int))
      latest := addMonthsT ⟨⟨mx.date.year, mx.date.month, 1⟩, 0⟩ 1 })

/-- Restriction of a row to the series' columns
(`.groupby(...)[series.columns]`). -/
def selectCols (cols : List String) (r : Rows) : Rows :=
  cols.map (fun c => (c, getVal r c))

/-- The distinct clamped bucket keys of a windowed table, in first-row
order.  (pandas sorts group keys; every verified statement is insensitive
to the ordering, which is therefore not modelled.) -/
def clampKeys (clamp : DateTime → DateTime) (rows : Table) : List DateTime :=
  (rows.map (fun r => clamp r.1)).dedup

/-- The rows of a bucket, in table order. -/
def bucketRows (clamp : DateTime → DateTime) (rows : Table) (k : DateTime) : Table :=
  rows.filter (fun r => decide (clamp r.1 = k))

/-- The offset shift of `Plot._series_data`: if the series has an offset,
every row's timestamp is shifted by it (on a copy of the table). -/
def shiftTable (s : Series) (tbl : Table) : Table :=
  match s.offset with
  | none => tbl
  | some off => tbl.map (fun r => (applyRel off r.1, r.2))

/-- The windowed table of `Plot._series_data`: offset shift, then filter to
the half-open bounds. -/
def windowedTable (b : Bounds) (s : Series) (tbl : Table) : Table :=
  (shiftTable s tbl).filter (fun r => timeWindow b r.1)

/-- `Plot._series_data`: shift the index by the offset (on a copy), filter
to the half-open bounds, group by the clamp, select the series' columns,
apply the aggregation, and drop missing (NaN) buckets.  (The relabelling
step carries no data content and is not modelled.) -/
def seriesData (clamp : DateTime → DateTime) (b : Bounds) (s : Series)
    (tbl : Table) : List (DateTime × PFloat) :=
  ((clampKeys clamp (windowedTable b s tbl)).map (fun k =>
    (k, s.agg ((bucketRows clamp (windowedTable b s tbl) k).map
      (fun r => (r.1, selectCols s.columns r.2)))))).filter
    (fun p => decide (p.2 ≠ PFloat.nan))

/-- The maximum bucket timestamp of a per-series output. -/
def outMax (out : List (DateTime × PFloat)) : Option DateTime :=
  maxD (out.map (fun p => p.1))

/-- The three built-in granularities. -/
inductive Gran where
  | daily
  | weekly
  | monthly
  deriving DecidableEq, Repr

/-- The implicit series `Chart._plots` builds: one per numeric column,
`np.sum` aggregation, no offset. -/
def autoSeries (numericCols : List String) : List Series :=
  numericCols.map (fun c => ⟨[c], c, npSum, none⟩)

/-- `Chart._plots` when no explicit plot list was supplied: derive the
panel set from the numeric columns and the day span of the index.  The
DatetimeIndex check is enforced by `Table`'s type here; `LINE_STYLES` has
4 entries.  (On an empty index pandas yields NaT and the comparison below
fails; this is modelled as an error.) -/
def chartPlots (plots : List (Gran × Plot)) (tbl : Table)
    (numericCols : List String) : Except String (List (Gran × Plot)) :=
  if 0 < plots.length then Except.ok plots
  else if numericCols.length = 0 then Except.error "dataframe must have numeric columns"
  else if 4 < numericCols.length then Except.error "too many numeric columns"
  else
    match maxD (tbl.map (fun r => r.1)), minD (tbl.map (fun r => r.1)) with
    | some mx, some mn =>
      if diffDays mx mn < 14 then
        Except.ok [(Gran.daily, ⟨autoSeries numericCols, (diffDays mx mn).toNat, none⟩)]
      else if diffDays mx mn < 31 then
        Except.ok [(Gran.daily, ⟨autoSeries numericCols, 7, none⟩),
                   (Gran.weekly, ⟨autoSeries numericCols, 4, none⟩)]
      else if diffDays mx mn < 365 then
        Except.ok [(Gran.daily, ⟨autoSeries numericCols, 7, none⟩),
                   (Gran.weekly, ⟨autoSeries numericCols, 6, none⟩)]
      else
        Except.ok [(Gran.daily, ⟨autoSeries numericCols, 7, none⟩),
                   (Gran.weekly, ⟨autoSeries numericCols, 6, none⟩),
                   (Gran.monthly, ⟨autoSeries numericCols, 12, none⟩)]
    | _, _ => Except.error "empty index"


theorem daysInMonth_ge (y m : Nat) : 28 ≤ daysInMonth y m := by
  unfold daysInMonth
  split
  · split <;> omega
  · split <;> omega

theorem daysInMonth_le (y m : Nat) : daysInMonth y m ≤ 31 := by
  unfold daysInMonth
  split
  · split <;> omega
  · split <;> omega

theorem daysInYear_eq (y : Nat) :
    daysInYear y =
      if (y % 4 = 0 ∧ ¬ y % 100 = 0) ∨ y % 400 = 0 then 366 else 365 := by
  unfold daysInYear isLeap
  by_cases h4 : y % 4 = 0 <;> by_cases h100 : y % 100 = 0 <;>
    by_cases h400 : y % 400 = 0 <;> simp [h4, h100, h400]

set_option maxHeartbeats 1000000 in
theorem daysBeforeYear_succ (y : Nat) (hy : 1 ≤ y) :
    daysBeforeYear (y + 1) = daysBeforeYear y + daysInYear y := by
  rw [daysInYear_eq]
  unfold daysBeforeYear
  split <;> omega

theorem daysBeforeMonth_succ (y m : Nat) (hm : 1 ≤ m) :
    daysBeforeMonth y (m + 1) = daysBeforeMonth y m + daysInMonth y m := by
  obtain ⟨k, rfl⟩ : ∃ k, m = k + 1 := ⟨m - 1, by omega⟩
  rfl

theorem daysBeforeMonth_13 (y : Nat) : daysBeforeMonth y 13 = daysInYear y := by
  show daysBeforeMonth y 13 = daysInYear y
  cases h : isLeap y <;>
    simp [daysBeforeMonth, daysInMonth, daysInYear, h]

theorem daysBeforeMonth_mono (y : Nat) {m m' : Nat} (h1 : 1 ≤ m) (h : m ≤ m') :
    daysBeforeMonth y m ≤ daysBeforeMonth y m' := by
  induction m', h using Nat.le_induction with
  | base => exact Nat.le_refl _
  | succ n hn ih =>
    rw [daysBeforeMonth_succ y n (by omega)]
    omega

theorem monthWalk_spec (y : Nat) :
    ∀ (fuel m r : Nat), 1 ≤ m → 12 ≤ m + fuel → m ≤ 12 →
    daysBeforeMonth y m + r < daysInYear y →
    1 ≤ (monthWalk y fuel m r).1 ∧ (monthWalk y fuel m r).1 ≤ 12 ∧
    1 ≤ (monthWalk y fuel m r).2 ∧
    (monthWalk y fuel m r).2 ≤ daysInMonth y (monthWalk y fuel m r).1 ∧
    daysBeforeMonth y (monthWalk y fuel m r).1 + (monthWalk y fuel m r).2 =
      daysBeforeMonth y m + r + 1 := by
  intro fuel
  induction fuel with
  | zero =>
    intro m r h1 h12 hm hr
    have hm12 : m = 12 := by omega
    subst hm12
    have h13 : daysBeforeMonth y 13 = daysBeforeMonth y 12 + daysInMonth y 12 :=
      daysBeforeMonth_succ y 12 (by omega)
    have := daysBeforeMonth_13 y
    simp only [monthWalk]
    omega
  | succ fuel ih =>
    intro m r h1 h12 hm hr
    simp only [monthWalk]
    split
    · simp only []
      omega
    · rename_i hlt
      have hm12 : m ≠ 12 := by
        intro h
        subst h
        have h13 : daysBeforeMonth y 13 = daysBeforeMonth y 12 + daysInMonth y 12 :=
          daysBeforeMonth_succ y 12 (by omega)
        have := daysBeforeMonth_13 y
        omega
      have hsucc := daysBeforeMonth_succ y m h1
      have := ih (m + 1) (r - daysInMonth y m) (by omega) (by omega) (by omega)
        (by omega)
      omega

theorem yearWalk_spec :
    ∀ (fuel y r : Nat), 1 ≤ y →
    r < daysBeforeYear (y + fuel) + daysInYear (y + fuel) - daysBeforeYear y →
    (yearWalk fuel y r).Valid ∧
    toOrdinal (yearWalk fuel y r) = daysBeforeYear y + r + 1 := by
  intro fuel
  induction fuel with
  | zero =>
    intro y r hy hr
    simp only [Nat.add_zero] at hr
    have hr' : r < daysInYear y := by omega
    have hmw := monthWalk_spec y 11 1 r (by omega) (by omega) (by omega)
      (by simpa [daysBeforeMonth] using hr')
    constructor
    · exact ⟨hy, hmw.1, hmw.2.1, hmw.2.2.1, hmw.2.2.2.1⟩
    · simp only [yearWalk, toOrdinal]
      have := hmw.2.2.2.2
      simp only [daysBeforeMonth] at this
      omega
  | succ fuel ih =>
    intro y r hy hr
    simp only [yearWalk]
    split
    · rename_i hlt
      have hmw := monthWalk_spec y 11 1 r (by omega) (by omega) (by omega)
        (by simpa [daysBeforeMonth] using hlt)
      constructor
      · exact ⟨hy, hmw.1, hmw.2.1, hmw.2.2.1, hmw.2.2.2.1⟩
      · simp only [toOrdinal]
        have := hmw.2.2.2.2
        simp only [daysBeforeMonth] at this
        omega
    · rename_i hge
      have hstep : daysBeforeYear (y + 1) = daysBeforeYear y + daysInYear y :=
        daysBeforeYear_succ y hy
      have hnext : y + 1 + fuel = y + (fuel + 1) := by omega
      have := ih (y + 1) (r - daysInYear y) (by omega) (by rw [hnext]; omega)
      exact ⟨this.1, by omega⟩

theorem toOrdinal_fromOrdinal (n : Nat) (h : 1 ≤ n) :
    (fromOrdinal n).Valid ∧ toOrdinal (fromOrdinal n) = n := by
  have hbig : n - 1 < daysBeforeYear (1 + n) + daysInYear (1 + n) - daysBeforeYear 1 := by
    have h4 : (1 + n - 1) / 100 ≤ (1 + n - 1) / 4 :=
      Nat.div_le_div_left (by omega) (by omega)
    unfold daysBeforeYear daysInYear
    split <;> omega
  have := yearWalk_spec n 1 (n - 1) (by omega) hbig
  unfold fromOrdinal
  constructor
  · exact this.1
  · have h1 : daysBeforeYear 1 = 0 := by unfold daysBeforeYear; omega
    omega


theorem toOrdinal_in_year (d : Date) (h : d.Valid) :
    1 ≤ daysBeforeMonth d.year d.month + d.day ∧
      daysBeforeMonth d.year d.month + d.day ≤ daysInYear d.year := by
  obtain ⟨hy, hm1, hm12, hd1, hdm⟩ := h
  have hsucc := daysBeforeMonth_succ d.year d.month hm1
  have hmono := @daysBeforeMonth_mono d.year (d.month + 1) 13 (by omega) (by omega)
  have h13 := daysBeforeMonth_13 d.year
  omega

theorem daysBeforeYear_mono {y y' : Nat} (h : y ≤ y') :
    daysBeforeYear y ≤ daysBeforeYear y' := by
  unfold daysBeforeYear
  have h4 : (y - 1) / 4 ≤ (y' - 1) / 4 := Nat.div_le_div_right (by omega)
  have h100 : (y' - 1) / 100 ≤ (y' - 1) / 4 :=
    Nat.div_le_div_left (by omega) (by omega)
  have h100' : (y - 1) / 100 ≤ (y' - 1) / 100 := Nat.div_le_div_right (by omega)
  have h400 : (y - 1) / 400 ≤ (y' - 1) / 400 := Nat.div_le_div_right (by omega)
  omega

theorem toOrdinal_lt_of_lt (a b : Date) (ha : a.Valid) (hb : b.Valid)
    (h : Date.lt a b) : toOrdinal a < toOrdinal b := by
  have hay := toOrdinal_in_year a ha
  have hby := toOrdinal_in_year b hb
  rcases h with hy | ⟨hy, hm | ⟨hm, hd⟩⟩
  · have hstep := daysBeforeYear_succ a.year ha.1
    have hmono : daysBeforeYear (a.year + 1) ≤ daysBeforeYear b.year :=
      daysBeforeYear_mono (by omega)
    unfold toOrdinal
    omega
  · have hsucc := daysBeforeMonth_succ a.year a.month ha.2.1
    have hmono : daysBeforeMonth a.year (a.month + 1) ≤ daysBeforeMonth a.year b.month :=
      daysBeforeMonth_mono a.year (by omega) (by omega)
    have hvd : a.day ≤ daysInMonth a.year a.month := ha.2.2.2.2
    have hbd : 1 ≤ b.day := hb.2.2.2.1
    unfold toOrdinal
    rw [hy] at hsucc hmono hvd ⊢
    omega
  · unfold toOrdinal
    rw [hy, hm]
    omega

theorem Date.lt_trichotomy (a b : Date) :
    Date.lt a b ∨ a = b ∨ Date.lt b a := by
  unfold Date.lt
  rcases a with ⟨ay, am, ad⟩
  rcases b with ⟨by_, bm, bd⟩
  simp only [Date.mk.injEq]
  omega

theorem toOrdinal_lt_iff (a b : Date) (ha : a.Valid) (hb : b.Valid) :
    Date.lt a b ↔ toOrdinal a < toOrdinal b := by
  constructor
  · exact toOrdinal_lt_of_lt a b ha hb
  · intro h
    rcases Date.lt_trichotomy a b with hlt | heq | hgt
    · exact hlt
    · subst heq; omega
    · have := toOrdinal_lt_of_lt b a hb ha hgt
      omega

theorem toOrdinal_inj (a b : Date) (ha : a.Valid) (hb : b.Valid)
    (h : toOrdinal a = toOrdinal b) : a = b := by
  rcases Date.lt_trichotomy a b with hlt | heq | hgt
  · have := toOrdinal_lt_of_lt a b ha hb hlt; omega
  · exact heq
  · have := toOrdinal_lt_of_lt b a hb ha hgt; omega

theorem toOrdinal_pos (d : Date) (h : d.Valid) : 1 ≤ toOrdinal d := by
  unfold toOrdinal
  have := toOrdinal_in_year d h
  omega

theorem fromOrdinal_toOrdinal (d : Date) (h : d.Valid) :
    fromOrdinal (toOrdinal d) = d := by
  have hpos := toOrdinal_pos d h
  have hrt := toOrdinal_fromOrdinal (toOrdinal d) hpos
  exact toOrdinal_inj _ _ hrt.1 h hrt.2

theorem toSecs_lt_iff (a b : DateTime) (ha : a.Valid) (hb : b.Valid) :
    DateTime.lt a b ↔ toSecs a < toSecs b := by
  unfold DateTime.lt toSecs
  constructor
  · rintro (hd | ⟨hd, hs⟩)
    · have := (toOrdinal_lt_iff a.date b.date ha.1 hb.1).mp hd
      have := ha.2
      omega
    · rw [hd]; omega
  · intro h
    rcases Date.lt_trichotomy a.date b.date with hlt | heq | hgt
    · exact Or.inl hlt
    · exact Or.inr ⟨heq, by rw [heq] at h; omega⟩
    · have := (toOrdinal_lt_iff b.date a.date hb.1 ha.1).mp hgt
      have := hb.2
      omega

theorem DateTime.eq_of_toSecs_eq (a b : DateTime) (ha : a.Valid) (hb : b.Valid)
    (h : toSecs a = toSecs b) : a = b := by
  unfold toSecs at h
  have hd : a.date = b.date := by
    apply toOrdinal_inj a.date b.date ha.1 hb.1
    have := ha.2
    have := hb.2
    omega
  have hs : a.sec = b.sec := by rw [hd] at h; omega
  rcases a with ⟨ad, as⟩
  rcases b with ⟨bd, bs⟩
  dsimp only at hd hs
  rw [hd, hs]

theorem toSecs_le_iff (a b : DateTime) (ha : a.Valid) (hb : b.Valid) :
    DateTime.le a b ↔ toSecs a ≤ toSecs b := by
  unfold DateTime.le
  constructor
  · rintro (h | rfl)
    · exact Nat.le_of_lt ((toSecs_lt_iff a b ha hb).mp h)
    · exact Nat.le_refl _
  · intro h
    rcases Nat.eq_or_lt_of_le h with heq | hlt
    · exact Or.inr (DateTime.eq_of_toSecs_eq a b ha hb heq)
    · exact Or.inl ((toSecs_lt_iff a b ha hb).mpr hlt)

theorem addDaysD_spec (d : Date) (k : Int)
    (h : 1 ≤ (toOrdinal d : Int) + k) :
    (addDaysD d k).Valid ∧ (toOrdinal (addDaysD d k) : Int) = (toOrdinal d : Int) + k := by
  unfold addDaysD
  have hn : 1 ≤ ((toOrdinal d : Int) + k).toNat := by omega
  have := toOrdinal_fromOrdinal ((toOrdinal d : Int) + k).toNat hn
  exact ⟨this.1, by omega⟩

theorem addMonthsD_valid (d : Date) (k : Int) (hdv : d.Valid)
    (h : 12 ≤ monthsTot d k) :
    (addMonthsD d k).Valid := by
  unfold addMonthsD Date.Valid
  have hge := daysInMonth_ge ((monthsTot d k / 12).toNat)
    ((monthsTot d k % 12).toNat + 1)
  have hday : 1 ≤ d.day := hdv.2.2.2.1
  dsimp only
  refine ⟨by omega, by omega, by omega, by omega, ?_⟩
  exact Nat.min_le_right _ _

theorem maxD_ne_nil (x : DateTime) (xs : List DateTime) :
    maxD (x :: xs) ≠ none := by
  simp [maxD]

theorem maxD_mem (l : List DateTime) :
    ∀ m, maxD l = some m → m ∈ l := by
  induction l with
  | nil => intro m h; simp [maxD] at h
  | cons x xs ih =>
    intro m h
    simp only [maxD, Option.some.injEq] at h
    rcases ha : maxD xs with _ | mx <;> rw [ha] at h <;> dsimp only at h
    · exact h ▸ List.mem_cons_self x xs
    · by_cases hc : toSecs x < toSecs mx
      · rw [if_pos hc] at h
        exact List.mem_cons_of_mem x (h ▸ ih mx ha)
      · rw [if_neg hc] at h
        exact h ▸ List.mem_cons_self x xs

theorem maxD_ge (l : List DateTime) :
    ∀ m, maxD l = some m → ∀ x ∈ l, toSecs x ≤ toSecs m := by
  induction l with
  | nil => intro m h; simp [maxD] at h
  | cons a xs ih =>
    intro m h x hx
    simp only [maxD, Option.some.injEq] at h
    rcases ha : maxD xs with _ | mx <;> rw [ha] at h <;> dsimp only at h
    · have hxs : xs = [] := by
        cases xs with
        | nil => rfl
        | cons b bs => exact absurd ha (maxD_ne_nil b bs)
      subst hxs
      subst h
      rcases List.mem_cons.mp hx with rfl | hmem
      · omega
      · simp at hmem
    · rcases List.mem_cons.mp hx with rfl | hmem
      · subst h
        split <;> omega
      · have hle := ih mx ha x hmem
        subst h
        split <;> omega

theorem maxD_eq_of (l : List DateTime) (a : DateTime) (hmem : a ∈ l)
    (hle : ∀ x ∈ l, toSecs x ≤ toSecs a)
    (huniq : ∀ x ∈ l, toSecs x = toSecs a → x = a) :
    maxD l = some a := by
  rcases hl : maxD l with _ | m
  · cases l with
    | nil => simp at hmem
    | cons y ys => exact absurd hl (maxD_ne_nil y ys)
  · have hm := maxD_mem l m hl
    have h1 := maxD_ge l m hl a hmem
    have h2 := hle m hm
    have hma : m = a := huniq m hm (by omega)
    rw [← hma]

theorem minD_ne_nil (x : DateTime) (xs : List DateTime) :
    minD (x :: xs) ≠ none := by
  simp [minD]

theorem minD_mem (l : List DateTime) :
    ∀ m, minD l = some m → m ∈ l := by
  induction l with
  | nil => intro m h; simp [minD] at h
  | cons x xs ih =>
    intro m h
    simp only [minD, Option.some.injEq] at h
    rcases ha : minD xs with _ | mx <;> rw [ha] at h <;> dsimp only at h
    · exact h ▸ List.mem_cons_self x xs
    · by_cases hc : toSecs mx < toSecs x
      · rw [if_pos hc] at h
        exact List.mem_cons_of_mem x (h ▸ ih mx ha)
      · rw [if_neg hc] at h
        exact h ▸ List.mem_cons_self x xs

theorem minD_le (l : List DateTime) :
    ∀ m, minD l = some m → ∀ x ∈ l, toSecs m ≤ toSecs x := by
  induction l with
  | nil => intro m h; simp [minD] at h
  | cons a xs ih =>
    intro m h x hx
    simp only [minD, Option.some.injEq] at h
    rcases ha : minD xs with _ | mx <;> rw [ha] at h <;> dsimp only at h
    · have hxs : xs = [] := by
        cases xs with
        | nil => rfl
        | cons b bs => exact absurd ha (minD_ne_nil b bs)
      subst hxs
      subst h
      rcases List.mem_cons.mp hx with rfl | hmem
      · omega
      · simp at hmem
    · rcases List.mem_cons.mp hx with rfl | hmem
      · subst h
        split <;> omega
      · have hle := ih mx ha x hmem
        subst h
        split <;> omega

theorem weeklyClamp_spec (t : DateTime) (h : t.Valid) :
    (weeklyClamp t).Valid ∧
    toOrdinal (weeklyClamp t).date = toOrdinal t.date - weekday t.date ∧
    (weeklyClamp t).sec = 0 := by
  have hord := toOrdinal_pos t.date h.1
  have hwd : weekday t.date ≤ toOrdinal t.date - 1 := by
    unfold weekday
    omega
  have heq : weeklyClamp t = ⟨addDaysD t.date (-(weekday t.date : Int)), 0⟩ := rfl
  have hspec := addDaysD_spec t.date (-(weekday t.date : Int)) (by omega)
  rw [heq]
  refine ⟨⟨hspec.1, by show (0 : Nat) < 86400; omega⟩, ?_, rfl⟩
  show toOrdinal (addDaysD t.date (-(weekday t.date : Int))) = toOrdinal t.date - weekday t.date
  have := hspec.2
  omega

theorem weeklyClamp_weekday_zero (t : DateTime) (h : t.Valid) :
    weekday (weeklyClamp t).date = 0 := by
  have hW := weeklyClamp_spec t h
  have hord := toOrdinal_pos t.date h.1
  have h2 := hW.2.1
  unfold weekday at h2 ⊢
  omega

/-- C2: for every valid timestamp (the domain of Python `datetime`), each
of the three granularities' clamp functions is idempotent. -/
theorem claim2_clamp_idempotent (t : DateTime) (h : t.Valid) :
    dailyClamp (dailyClamp t) = dailyClamp t ∧
    weeklyClamp (weeklyClamp t) = weeklyClamp t ∧
    monthlyClamp (monthlyClamp t) = monthlyClamp t := by
  refine ⟨rfl, ?_, rfl⟩
  have hW := weeklyClamp_spec t h
  have hwd0 : weekday (weeklyClamp t).date = 0 := weeklyClamp_weekday_zero t h
  have heq : weeklyClamp (weeklyClamp t) =
      ⟨addDaysD (weeklyClamp t).date (-(weekday (weeklyClamp t).date : Int)), 0⟩ := rfl
  rw [heq, hwd0]
  have hzero : addDaysD (weeklyClamp t).date (-((0 : Nat) : Int)) = (weeklyClamp t).date := by
    unfold addDaysD
    simp only [Nat.cast_zero, neg_zero, add_zero, Int.toNat_natCast]
    exact fromOrdinal_toOrdinal _ hW.1.1
  rw [hzero]
  have hsec : (weeklyClamp t).sec = 0 := hW.2.2
  rcases ht : weeklyClamp t with ⟨Wd, Ws⟩
  rw [ht] at hsec
  simp only at hsec
  rw [hsec]

/-- C3: the Weekly clamp returns midnight of the Monday on or before the
timestamp's calendar day; a timestamp that is exactly Monday 00:00 is a
fixed point; clamping 2023-07-09 (a Sunday) yields 2023-07-03. -/
theorem claim3_weeklyClamp_monday (t : DateTime) (h : t.Valid) :
    weekday (weeklyClamp t).date = 0 ∧
    (weeklyClamp t).sec = 0 ∧
    DateTime.le (weeklyClamp t) t ∧
    toOrdinal (weeklyClamp t).date ≤ toOrdinal t.date ∧
    toOrdinal t.date - toOrdinal (weeklyClamp t).date ≤ 6 ∧
    (t.sec = 0 → weekday t.date = 0 → weeklyClamp t = t) ∧
    weeklyClamp ⟨⟨2023, 7, 9⟩, 0⟩ = ⟨⟨2023, 7, 3⟩, 0⟩ := by
  have hW := weeklyClamp_spec t h
  have hord := toOrdinal_pos t.date h.1
  have hwd6 : weekday t.date ≤ 6 := by
    unfold weekday
    omega
  refine ⟨weeklyClamp_weekday_zero t h, hW.2.2, ?_, by omega, by omega, ?_, by decide⟩
  · apply (toSecs_le_iff _ _ hW.1 h).mpr
    unfold toSecs
    rw [hW.2.2, hW.2.1]
    have : 86400 * (toOrdinal t.date - weekday t.date) ≤ 86400 * toOrdinal t.date := by
      omega
    omega
  · intro hsec hmon
    have heq : weeklyClamp t = ⟨addDaysD t.date (-(weekday t.date : Int)), 0⟩ := rfl
    rw [heq, hmon]
    have hzero : addDaysD t.date (-((0 : Nat) : Int)) = t.date := by
      unfold addDaysD
      simp only [Nat.cast_zero, neg_zero, add_zero, Int.toNat_natCast]
      exact fromOrdinal_toOrdinal _ h.1
    rw [hzero]
    rcases ht : t with ⟨td, ts⟩
    rw [ht] at hsec
    simp only at hsec
    rw [hsec]

/-- C1: whenever the reference timestamp (the maximum index among rows
with a non-missing value in the relevant columns) exists, the bounds of
the three granularities follow the spec table: Daily's `latest` is the
clamp of the reference (not advanced), Weekly's/Monthly's `latest` is the
clamp advanced by one bucket, and `earliest` is always `latest` minus
`w` bucket increments. -/
theorem claim1_bounds_follow_table (p : Plot) (tbl : Table) (w : Nat)
    (ref : DateTime) (h : maxDt p tbl = some ref) :
    dailyBounds p w tbl =
      some ⟨addDaysT (dailyClamp ref) (-(w : Int)), dailyClamp ref⟩ ∧
    weeklyBounds p w tbl =
      some ⟨addDaysT (addDaysT (weeklyClamp ref) 7) (-(7 * w : Int)),
            addDaysT (weeklyClamp ref) 7⟩ ∧
    monthlyBounds p w tbl =
      some ⟨addMonthsT (addMonthsT (monthlyClamp ref) 1) (-(w : Int)),
            addMonthsT (monthlyClamp ref) 1⟩ := by
  unfold dailyBounds weeklyBounds monthlyBounds
  rw [h]
  exact ⟨rfl, rfl, rfl⟩

theorem claim1_bounds_follow_table_witness :
    maxDt ⟨autoSeries ["a"], 7, none⟩ [(⟨⟨2, 3, 4⟩, 3600⟩, [("a", some 1)])] =
      some ⟨⟨2, 3, 4⟩, 3600⟩ ∧
    (dailyBounds ⟨autoSeries ["a"], 7, none⟩ 5 [(⟨⟨2, 3, 4⟩, 3600⟩, [("a", some 1)])] =
      some ⟨addDaysT (dailyClamp ⟨⟨2, 3, 4⟩, 3600⟩) (-(5 : Int)),
            dailyClamp ⟨⟨2, 3, 4⟩, 3600⟩⟩ ∧
    weeklyBounds ⟨autoSeries ["a"], 7, none⟩ 5 [(⟨⟨2, 3, 4⟩, 3600⟩, [("a", some 1)])] =
      some ⟨addDaysT (addDaysT (weeklyClamp ⟨⟨2, 3, 4⟩, 3600⟩) 7) (-(7 * 5 : Int)),
            addDaysT (weeklyClamp ⟨⟨2, 3, 4⟩, 3600⟩) 7⟩ ∧
    monthlyBounds ⟨autoSeries ["a"], 7, none⟩ 5 [(⟨⟨2, 3, 4⟩, 3600⟩, [("a", some 1)])] =
      some ⟨addMonthsT (addMonthsT (monthlyClamp ⟨⟨2, 3, 4⟩, 3600⟩) 1) (-(5 : Int)),
            addMonthsT (monthlyClamp ⟨⟨2, 3, 4⟩, 3600⟩) 1⟩) :=
  ⟨by decide, claim1_bounds_follow_table _ _ 5 _ (by decide)⟩

theorem claim2_clamp_idempotent_witness :
    (⟨⟨2023, 7, 9⟩, 43200⟩ : DateTime).Valid ∧
    (dailyClamp (dailyClamp ⟨⟨2023, 7, 9⟩, 43200⟩) = dailyClamp ⟨⟨2023, 7, 9⟩, 43200⟩ ∧
     weeklyClamp (weeklyClamp ⟨⟨2023, 7, 9⟩, 43200⟩) = weeklyClamp ⟨⟨2023, 7, 9⟩, 43200⟩ ∧
     monthlyClamp (monthlyClamp ⟨⟨2023, 7, 9⟩, 43200⟩) = monthlyClamp ⟨⟨2023, 7, 9⟩, 43200⟩) :=
  ⟨by decide, claim2_clamp_idempotent _ (by decide)⟩

theorem claim3_weeklyClamp_monday_witness :
    (⟨⟨2023, 7, 9⟩, 7200⟩ : DateTime).Valid ∧
    (weekday (weeklyClamp ⟨⟨2023, 7, 9⟩, 7200⟩).date = 0 ∧
     (weeklyClamp ⟨⟨2023, 7, 9⟩, 7200⟩).sec = 0 ∧
     DateTime.le (weeklyClamp ⟨⟨2023, 7, 9⟩, 7200⟩) ⟨⟨2023, 7, 9⟩, 7200⟩ ∧
     toOrdinal (weeklyClamp ⟨⟨2023, 7, 9⟩, 7200⟩).date ≤ toOrdinal (⟨2023, 7, 9⟩ : Date) ∧
     toOrdinal (⟨2023, 7, 9⟩ : Date) - toOrdinal (weeklyClamp ⟨⟨2023, 7, 9⟩, 7200⟩).date ≤ 6 ∧
     ((⟨⟨2023, 7, 9⟩, 7200⟩ : DateTime).sec = 0 → weekday (⟨2023, 7, 9⟩ : Date) = 0 →
       weeklyClamp ⟨⟨2023, 7, 9⟩, 7200⟩ = ⟨⟨2023, 7, 9⟩, 7200⟩) ∧
     weeklyClamp ⟨⟨2023, 7, 9⟩, 0⟩ = ⟨⟨2023, 7, 3⟩, 0⟩) :=
  ⟨by decide, claim3_weeklyClamp_monday _ (by decide)⟩

/-- C7: constructing a Panel whose series all carry an offset fails the
construction-time assertion (no table is involved at all); at least one
no-offset (anchor) series makes construction succeed. -/
theorem claim7_plot_requires_anchor (series : List Series) (inc : Nat)
    (rc : Option (List String)) :
    ((∀ s ∈ series, s.offset ≠ none) → mkPlot series inc rc = none) ∧
    ((∃ s ∈ series, s.offset = none) → (mkPlot series inc rc).isSome = true) := by
  constructor
  · intro h
    unfold mkPlot
    rw [if_neg]
    intro hpos
    rw [List.length_pos] at hpos
    obtain ⟨s, hs⟩ := List.exists_mem_of_ne_nil _ hpos
    have := List.mem_filter.mp hs
    exact h s this.1 (Option.isNone_iff_eq_none.mp this.2)
  · rintro ⟨s, hs, hoff⟩
    unfold mkPlot
    rw [if_pos]
    · rfl
    · exact List.length_pos.mpr
        (List.ne_nil_of_mem (List.mem_filter.mpr ⟨hs, by rw [hoff]; rfl⟩))

theorem claim7_plot_requires_anchor_witness :
    mkPlot [⟨["v"], "v1", npSum, some ⟨0, 1⟩⟩, ⟨["v"], "v2", npSum, some ⟨0, 2⟩⟩] 1 none = none ∧
    (mkPlot [⟨["v"], "anchor", npSum, none⟩] 1 none).isSome = true := by
  constructor
  · exact (claim7_plot_requires_anchor _ 1 none).1 (by
      intro s hs
      rcases List.mem_cons.mp hs with rfl | hs'
      · exact fun hc => by cases hc
      · rcases List.mem_cons.mp hs' with rfl | hs''
        · exact fun hc => by cases hc
        · cases hs'')
  · exact (claim7_plot_requires_anchor _ 1 none).2
      ⟨_, List.mem_cons_self _ _, rfl⟩

/-- C10 counterexample: a Series constructed with an *empty list* of
columns keeps it, so `columns` is not always non-empty after
construction. -/
theorem claim10_counterexample :
    (mkSeries (Sum.inl []) "x" npSum none).columns = [] := rfl

/-- C10 (amended): a lone string becomes a one-element list and a list is
stored unchanged, so `columns` is non-empty in the string form, and in the
list form exactly when the caller's list was non-empty (an empty list is
kept empty, contrary to the claim's final clause). -/
theorem claim10_columns_forms (label : String)
    (agg : List (DateTime × Rows) → PFloat) (off : Option Rel) :
    (∀ s : String, (mkSeries (Sum.inr s) label agg off).columns = [s]) ∧
    (∀ l : List String, (mkSeries (Sum.inl l) label agg off).columns = l) ∧
    (∀ s : String, (mkSeries (Sum.inr s) label agg off).columns ≠ []) ∧
    (∀ l : List String, l ≠ [] → (mkSeries (Sum.inl l) label agg off).columns ≠ []) :=
  ⟨fun _ => rfl, fun _ => rfl, fun s => List.cons_ne_nil s [], fun _ h => h⟩

theorem claim10_columns_forms_witness :
    ((mkSeries (Sum.inr "v") "L" npSum none).columns = ["v"]) ∧
    ((mkSeries (Sum.inl ["a", "b"]) "L" npSum none).columns = ["a", "b"]) ∧
    ((mkSeries (Sum.inr "v") "L" npSum none).columns ≠ []) ∧
    ((mkSeries (Sum.inl ["a", "b"]) "L" npSum none).columns ≠ []) :=
  ⟨(claim10_columns_forms "L" npSum none).1 "v",
   (claim10_columns_forms "L" npSum none).2.1 ["a", "b"],
   (claim10_columns_forms "L" npSum none).2.2.1 "v",
   (claim10_columns_forms "L" npSum none).2.2.2 ["a", "b"] (by decide)⟩

/-- C8: with no explicit panels, a timestamp index and 1–4 numeric
columns, the auto-derived panel set is exactly determined by the day span,
and every auto-built series aggregates with `np.sum` and has no offset. -/
theorem claim8_auto_panels (tbl : Table) (cols : List String)
    (mx mn : DateTime)
    (hmx : maxD (tbl.map (fun r => r.1)) = some mx)
    (hmn : minD (tbl.map (fun r => r.1)) = some mn)
    (h1 : 1 ≤ cols.length) (h4 : cols.length ≤ 4) :
    (diffDays mx mn < 14 →
      chartPlots [] tbl cols =
        Except.ok [(Gran.daily, ⟨autoSeries cols, (diffDays mx mn).toNat, none⟩)]) ∧
    (14 ≤ diffDays mx mn → diffDays mx mn < 31 →
      chartPlots [] tbl cols =
        Except.ok [(Gran.daily, ⟨autoSeries cols, 7, none⟩),
                   (Gran.weekly, ⟨autoSeries cols, 4, none⟩)]) ∧
    (31 ≤ diffDays mx mn → diffDays mx mn < 365 →
      chartPlots [] tbl cols =
        Except.ok [(Gran.daily, ⟨autoSeries cols, 7, none⟩),
                   (Gran.weekly, ⟨autoSeries cols, 6, none⟩)]) ∧
    (365 ≤ diffDays mx mn →
      chartPlots [] tbl cols =
        Except.ok [(Gran.daily, ⟨autoSeries cols, 7, none⟩),
                   (Gran.weekly, ⟨autoSeries cols, 6, none⟩),
                   (Gran.monthly, ⟨autoSeries cols, 12, none⟩)]) ∧
    (∀ s ∈ autoSeries cols, s.agg = npSum ∧ s.offset = none) := by
  have hmain : chartPlots [] tbl cols =
      (if diffDays mx mn < 14 then
        Except.ok [(Gran.daily, ⟨autoSeries cols, (diffDays mx mn).toNat, none⟩)]
      else if diffDays mx mn < 31 then
        Except.ok [(Gran.daily, ⟨autoSeries cols, 7, none⟩),
                   (Gran.weekly, ⟨autoSeries cols, 4, none⟩)]
      else if diffDays mx mn < 365 then
        Except.ok [(Gran.daily, ⟨autoSeries cols, 7, none⟩),
                   (Gran.weekly, ⟨autoSeries cols, 6, none⟩)]
      else
        Except.ok [(Gran.daily, ⟨autoSeries cols, 7, none⟩),
                   (Gran.weekly, ⟨autoSeries cols, 6, none⟩),
                   (Gran.monthly, ⟨autoSeries cols, 12, none⟩)]) := by
    unfold chartPlots
    rw [if_neg (by simp), if_neg (by omega), if_neg (by omega), hmx, hmn]
  refine ⟨?_, ?_, ?_, ?_, ?_⟩
  · intro hs
    rw [hmain, if_pos hs]
  · intro hs1 hs2
    rw [hmain, if_neg (by omega), if_pos hs2]
  · intro hs1 hs2
    rw [hmain, if_neg (by omega), if_neg (by omega), if_pos hs2]
  · intro hs
    rw [hmain, if_neg (by omega), if_neg (by omega), if_neg (by omega)]
  · intro s hs
    simp only [autoSeries, List.mem_map] at hs
    obtain ⟨c, _, rfl⟩ := hs
    exact ⟨rfl, rfl⟩

theorem claim8_auto_panels_witness :
    maxD (([(⟨⟨2, 1, 21⟩, 0⟩, [("v", some 1)]), (⟨⟨2, 1, 1⟩, 0⟩, [("v", some 2)])] : Table).map
      (fun r => r.1)) = some ⟨⟨2, 1, 21⟩, 0⟩ ∧
    minD (([(⟨⟨2, 1, 21⟩, 0⟩, [("v", some 1)]), (⟨⟨2, 1, 1⟩, 0⟩, [("v", some 2)])] : Table).map
      (fun r => r.1)) = some ⟨⟨2, 1, 1⟩, 0⟩ ∧
    (14 ≤ diffDays ⟨⟨2, 1, 21⟩, 0⟩ ⟨⟨2, 1, 1⟩, 0⟩ ∧
     diffDays ⟨⟨2, 1, 21⟩, 0⟩ ⟨⟨2, 1, 1⟩, 0⟩ < 31) ∧
    chartPlots [] [(⟨⟨2, 1, 21⟩, 0⟩, [("v", some 1)]), (⟨⟨2, 1, 1⟩, 0⟩, [("v", some 2)])] ["v"] =
      Except.ok [(Gran.daily, ⟨autoSeries ["v"], 7, none⟩),
                 (Gran.weekly, ⟨autoSeries ["v"], 4, none⟩)] ∧
    (∀ s ∈ autoSeries ["v"], s.agg = npSum ∧ s.offset = none) := by
  refine ⟨by decide, by decide, by decide, ?_, ?_⟩
  · exact (claim8_auto_panels
      [(⟨⟨2, 1, 21⟩, 0⟩, [("v", some 1)]), (⟨⟨2, 1, 1⟩, 0⟩, [("v", some 2)])] ["v"]
      ⟨⟨2, 1, 21⟩, 0⟩ ⟨⟨2, 1, 1⟩, 0⟩ (by decide) (by decide) (by decide) (by decide)).2.1
      (by decide) (by decide)
  · exact (claim8_auto_panels
      [(⟨⟨2, 1, 21⟩, 0⟩, [("v", some 1)]), (⟨⟨2, 1, 1⟩, 0⟩, [("v", some 2)])] ["v"]
      ⟨⟨2, 1, 21⟩, 0⟩ ⟨⟨2, 1, 1⟩, 0⟩ (by decide) (by decide) (by decide) (by decide)).2.2.2.2

/-- C5 counterexample: a table whose index spans less than one day makes
`Chart._plots` derive a single Daily panel with window size 0, and that
panel's bounds have `earliest = latest`, violating `earliest < latest`. -/
theorem claim5_counterexample :
    ((chartPlots [] [(⟨⟨2, 3, 4⟩, 3600⟩, [("v", some 1)])] ["v"]).toOption.map
      (fun l => l.map (fun gp => (gp.1, gp.2.increments)))) = some [(Gran.daily, 0)] ∧
    dailyBounds ⟨autoSeries ["v"], 0, none⟩ 0 [(⟨⟨2, 3, 4⟩, 3600⟩, [("v", some 1)])] =
      some ⟨⟨⟨2, 3, 4⟩, 0⟩, ⟨⟨2, 3, 4⟩, 0⟩⟩ ∧
    ¬ DateTime.lt (⟨⟨2, 3, 4⟩, 0⟩ : DateTime) ⟨⟨2, 3, 4⟩, 0⟩ := by decide

/-- C5 (amended): `earliest < latest` holds for every panel whose window
size is at least 1 (and whose window stays inside the proleptic calendar,
where Python's `datetime` would not raise); auto-derived panels all have
window size at least 1 provided the data spans at least one day. -/
theorem claim5_bounds_nondegenerate (p : Plot) (tbl : Table) (w : Nat)
    (ref : DateTime) (h : maxDt p tbl = some ref) (href : ref.Valid)
    (hw : 1 ≤ w) :
    (∀ b, (w : Int) < toOrdinal ref.date → dailyBounds p w tbl = some b →
      DateTime.lt b.earliest b.latest) ∧
    (∀ b, (7 * w : Int) + 6 < toOrdinal ref.date → weeklyBounds p w tbl = some b →
      DateTime.lt b.earliest b.latest) ∧
    (∀ b, (w : Int) + 12 ≤ 12 * (ref.date.year : Int) + ref.date.month →
      monthlyBounds p w tbl = some b → DateTime.lt b.earliest b.latest) ∧
    (∀ (tbl2 : Table) (cols : List String) (mx mn : DateTime)
       (res : List (Gran × Plot)),
      maxD (tbl2.map (fun r => r.1)) = some mx →
      minD (tbl2.map (fun r => r.1)) = some mn →
      1 ≤ diffDays mx mn →
      chartPlots [] tbl2 cols = Except.ok res →
      ∀ gp ∈ res, 1 ≤ gp.2.increments) := by
  have hrefd : ref.date.Valid := href.1
  have hord := toOrdinal_pos ref.date hrefd
  refine ⟨?_, ?_, ?_, ?_⟩
  · intro b hcond hb
    unfold dailyBounds at hb
    rw [h] at hb
    simp only [Option.map_some'] at hb
    injection hb with hb
    subst hb
    dsimp only
    have hspec := addDaysD_spec ref.date (-(w : Int)) (by omega)
    have hEv : (addDaysT (⟨⟨ref.date.year, ref.date.month, ref.date.day⟩, 0⟩ : DateTime)
        (-(w : Int))).Valid :=
      ⟨hspec.1, by show (0 : Nat) < 86400; omega⟩
    have hLv : ((⟨⟨ref.date.year, ref.date.month, ref.date.day⟩, 0⟩ : DateTime)).Valid :=
      ⟨hrefd, by show (0 : Nat) < 86400; omega⟩
    apply (toSecs_lt_iff _ _ hEv hLv).mpr
    show 86400 * toOrdinal (addDaysD ref.date (-(w : Int))) + 0 <
      86400 * toOrdinal ref.date + 0
    have := hspec.2
    omega
  · intro b hcond hb
    unfold weeklyBounds at hb
    rw [h] at hb
    simp only [Option.map_some'] at hb
    injection hb with hb
    subst hb
    dsimp only
    have hWv : (⟨ref.date, 0⟩ : DateTime).Valid := ⟨hrefd, by show (0 : Nat) < 86400; omega⟩
    have hW := weeklyClamp_spec ⟨ref.date, 0⟩ hWv
    have hwd : weekday ref.date ≤ 6 := by
      unfold weekday
      omega
    have hWord : toOrdinal (weeklyClamp (⟨ref.date, 0⟩ : DateTime)).date =
        toOrdinal ref.date - weekday ref.date := hW.2.1
    have h7 := addDaysD_spec (weeklyClamp ⟨ref.date, 0⟩).date 7 (by
      have := toOrdinal_pos _ hW.1.1
      omega)
    have hE := addDaysD_spec (addDaysD (weeklyClamp ⟨ref.date, 0⟩).date 7) (-(7 * w : Int)) (by
      have := h7.2
      omega)
    have hEv : (addDaysT (addDaysT (weeklyClamp
        (⟨⟨ref.date.year, ref.date.month, ref.date.day⟩, 0⟩ : DateTime)) 7)
        (-(7 * w : Int))).Valid :=
      ⟨hE.1, by show (0 : Nat) < 86400; omega⟩
    have hLv : (addDaysT (weeklyClamp
        (⟨⟨ref.date.year, ref.date.month, ref.date.day⟩, 0⟩ : DateTime)) 7).Valid :=
      ⟨h7.1, by show (0 : Nat) < 86400; omega⟩
    apply (toSecs_lt_iff _ _ hEv hLv).mpr
    show 86400 * toOrdinal (addDaysD (addDaysD (weeklyClamp ⟨ref.date, 0⟩).date 7) (-(7 * w : Int))) +
        0 <
      86400 * toOrdinal (addDaysD (weeklyClamp ⟨ref.date, 0⟩).date 7) + 0
    have := hE.2
    have := h7.2
    omega
  · intro b hcond hb
    unfold monthlyBounds at hb
    rw [h] at hb
    simp only [Option.map_some'] at hb
    injection hb with hb
    subst hb
    dsimp only
    have hm1 : 1 ≤ ref.date.month := hrefd.2.1
    have hm12 : ref.date.month ≤ 12 := hrefd.2.2.1
    have hy1 : 1 ≤ ref.date.year := hrefd.1
    apply Or.inl
    show Date.lt (addMonthsD (addMonthsD ⟨ref.date.year, ref.date.month, 1⟩ 1) (-(w : Int)))
      (addMonthsD ⟨ref.date.year, ref.date.month, 1⟩ 1)
    unfold addMonthsD monthsTot Date.lt
    dsimp only
    omega
  · intro tbl2 cols mx mn res hmx hmn hspan hres gp hgp
    unfold chartPlots at hres
    rw [if_neg (by simp)] at hres
    by_cases hc0 : cols.length = 0
    · rw [if_pos hc0] at hres; cases hres
    · rw [if_neg hc0] at hres
      by_cases hc4 : 4 < cols.length
      · rw [if_pos hc4] at hres; cases hres
      · rw [if_neg hc4, hmx, hmn] at hres
        dsimp only at hres
        by_cases h14 : diffDays mx mn < 14
        · rw [if_pos h14] at hres
          injection hres with hres
          subst hres
          simp only [List.mem_singleton] at hgp
          subst hgp
          show 1 ≤ (diffDays mx mn).toNat
          omega
        · rw [if_neg h14] at hres
          by_cases h31 : diffDays mx mn < 31
          · rw [if_pos h31] at hres
            injection hres with hres
            subst hres
            rcases List.mem_cons.mp hgp with rfl | hgp'
            · show 1 ≤ 7; omega
            · rcases List.mem_cons.mp hgp' with rfl | hgp''
              · show 1 ≤ 4; omega
              · cases hgp''
          · rw [if_neg h31] at hres
            by_cases h365 : diffDays mx mn < 365
            · rw [if_pos h365] at hres
              injection hres with hres
              subst hres
              rcases List.mem_cons.mp hgp with rfl | hgp'
              · show 1 ≤ 7; omega
              · rcases List.mem_cons.mp hgp' with rfl | hgp''
                · show 1 ≤ 6; omega
                · cases hgp''
            · rw [if_neg h365] at hres
              injection hres with hres
              subst hres
              rcases List.mem_cons.mp hgp with rfl | hgp'
              · show 1 ≤ 7; omega
              · rcases List.mem_cons.mp hgp' with rfl | hgp''
                · show 1 ≤ 6; omega
                · rcases List.mem_cons.mp hgp'' with rfl | hgp3
                  · show 1 ≤ 12; omega
                  · cases hgp3

theorem claim5_bounds_nondegenerate_witness :
    maxDt ⟨autoSeries ["v"], 3, none⟩ [(⟨⟨2023, 7, 9⟩, 3600⟩, [("v", some 1)])] =
      some ⟨⟨2023, 7, 9⟩, 3600⟩ ∧
    (⟨⟨2023, 7, 9⟩, 3600⟩ : DateTime).Valid ∧ 1 ≤ 3 ∧
    ((∀ b, ((3 : Nat) : Int) < toOrdinal (⟨2023, 7, 9⟩ : Date) →
      dailyBounds ⟨autoSeries ["v"], 3, none⟩ 3 [(⟨⟨2023, 7, 9⟩, 3600⟩, [("v", some 1)])] = some b →
      DateTime.lt b.earliest b.latest) ∧
    (∀ b, (7 * (3 : Nat) : Int) + 6 < toOrdinal (⟨2023, 7, 9⟩ : Date) →
      weeklyBounds ⟨autoSeries ["v"], 3, none⟩ 3 [(⟨⟨2023, 7, 9⟩, 3600⟩, [("v", some 1)])] = some b →
      DateTime.lt b.earliest b.latest) ∧
    (∀ b, ((3 : Nat) : Int) + 12 ≤ 12 * ((2023 : Nat) : Int) + (7 : Nat) →
      monthlyBounds ⟨autoSeries ["v"], 3, none⟩ 3 [(⟨⟨2023, 7, 9⟩, 3600⟩, [("v", some 1)])] = some b →
      DateTime.lt b.earliest b.latest) ∧
    (∀ (tbl2 : Table) (cols : List String) (mx mn : DateTime)
       (res : List (Gran × Plot)),
      maxD (tbl2.map (fun r => r.1)) = some mx →
      minD (tbl2.map (fun r => r.1)) = some mn →
      1 ≤ diffDays mx mn →
      chartPlots [] tbl2 cols = Except.ok res →
      ∀ gp ∈ res, 1 ≤ gp.2.increments)) :=
  ⟨by decide, by decide, by omega,
   claim5_bounds_nondegenerate ⟨autoSeries ["v"], 3, none⟩
     [(⟨⟨2023, 7, 9⟩, 3600⟩, [("v", some 1)])] 3 ⟨⟨2023, 7, 9⟩, 3600⟩
     (by decide) (by decide) (by omega)⟩

theorem getVal_selectCols (cols : List String) (r : Rows) (c : String)
    (h : c ∈ cols) : getVal (selectCols cols r) c = getVal r c := by
  induction cols with
  | nil => cases h
  | cons c0 cs ih =>
    by_cases hc : c = c0
    · subst hc
      unfold getVal selectCols
      simp only [List.map_cons, List.lookup, beq_self_eq_true]
      rfl
    · rcases List.mem_cons.mp h with rfl | hmem
      · exact absurd rfl hc
      · have hne : (c == c0) = false := beq_false_of_ne hc
        unfold getVal selectCols at ih ⊢
        simp only [List.map_cons, List.lookup, hne]
        exact ih hmem

theorem sumCol_selectCols (cols : List String) (c : String) (h : c ∈ cols) :
    ∀ rows : List (DateTime × Rows),
    sumCol (rows.map (fun r => (r.1, selectCols cols r.2))) c = sumCol rows c := by
  intro rows
  induction rows with
  | nil => rfl
  | cons r rs ih =>
    unfold sumCol at ih ⊢
    simp only [List.map_cons, List.filterMap_cons]
    rw [getVal_selectCols cols r.2 c h]
    cases hv : getVal r.2 c
    · exact ih
    · simp only [List.sum_cons]
      rw [ih]

theorem seriesData_mem (clamp : DateTime → DateTime) (b : Bounds) (s : Series)
    (tbl : Table) (k : DateTime) (v : PFloat) :
    (k, v) ∈ seriesData clamp b s tbl ↔
      (k ∈ clampKeys clamp (windowedTable b s tbl) ∧
       v = s.agg ((bucketRows clamp (windowedTable b s tbl) k).map
         (fun r => (r.1, selectCols s.columns r.2))) ∧
       v ≠ PFloat.nan) := by
  unfold seriesData
  rw [List.mem_filter, List.mem_map]
  constructor
  · rintro ⟨⟨k0, hk0, heq⟩, hnan⟩
    rw [Prod.mk.injEq] at heq
    obtain ⟨rfl, hv⟩ := heq
    exact ⟨hk0, hv.symm, of_decide_eq_true hnan⟩
  · rintro ⟨hk, rfl, hnan⟩
    exact ⟨⟨k, hk, rfl⟩, decide_eq_true hnan⟩

/-- C4 counterexample: a windowed bucket whose denominator column sums to
0 while the numerator sums to 1 produces +infinity, which `.dropna()` does
not remove: the bucket survives in the series output instead of being
dropped. -/
theorem claim4_counterexample :
    sumCol (bucketRows dailyClamp
      (windowedTable ⟨⟨⟨2, 3, 1⟩, 0⟩, ⟨⟨2, 3, 8⟩, 0⟩⟩
        ⟨["n", "d"], "r", ratio "n" "d", none⟩
        [(⟨⟨2, 3, 4⟩, 0⟩, [("n", some 1), ("d", some 0)])])
      ⟨⟨2, 3, 4⟩, 0⟩) "d" = 0 ∧
    seriesData dailyClamp ⟨⟨⟨2, 3, 1⟩, 0⟩, ⟨⟨2, 3, 8⟩, 0⟩⟩
      ⟨["n", "d"], "r", ratio "n" "d", none⟩
      [(⟨⟨2, 3, 4⟩, 0⟩, [("n", some 1), ("d", some 0)])] =
      [(⟨⟨2, 3, 4⟩, 0⟩, PFloat.inf)] := by decide

/-- C4 (amended): over a bucket whose denominator column sums to 0 the
ratio aggregation never raises and never yields zero nor any finite
value; it yields NaN — and the pipeline then drops the bucket — exactly
when the numerator column also sums to 0, and otherwise ±infinity, in
which case the bucket survives in the series output. -/
theorem claim4_ratio_zero_denominator (cn cd : String)
    (rows : List (DateTime × Rows)) (hden : sumCol rows cd = 0) :
    (ratio cn cd rows = if sumCol rows cn = 0 then PFloat.nan
      else if 0 < sumCol rows cn then PFloat.inf else PFloat.ninf) ∧
    (∀ q : ℚ, ratio cn cd rows ≠ PFloat.num q) ∧
    (∀ (clamp : DateTime → DateTime) (b : Bounds) (lab : String)
       (off : Option Rel) (tbl : Table) (k : DateTime),
      k ∈ clampKeys clamp (windowedTable b ⟨[cn, cd], lab, ratio cn cd, off⟩ tbl) →
      bucketRows clamp (windowedTable b ⟨[cn, cd], lab, ratio cn cd, off⟩ tbl) k = rows →
      ((∃ v, (k, v) ∈ seriesData clamp b ⟨[cn, cd], lab, ratio cn cd, off⟩ tbl) ↔
        sumCol rows cn ≠ 0) ∧
      (∀ v, (k, v) ∈ seriesData clamp b ⟨[cn, cd], lab, ratio cn cd, off⟩ tbl →
        (v = PFloat.inf ∨ v = PFloat.ninf))) := by
  have hmain : ratio cn cd rows = if sumCol rows cn = 0 then PFloat.nan
      else if 0 < sumCol rows cn then PFloat.inf else PFloat.ninf := by
    unfold ratio
    rw [if_pos hden]
  refine ⟨hmain, ?_, ?_⟩
  · intro q
    rw [hmain]
    split
    · exact fun hc => by cases hc
    · split
      · exact fun hc => by cases hc
      · exact fun hc => by cases hc
  · intro clamp b lab off tbl k hk hbr
    have hd2 := sumCol_selectCols [cn, cd] cd (by simp) rows
    have hn2 := sumCol_selectCols [cn, cd] cn (by simp) rows
    have hval : ratio cn cd (rows.map (fun r => (r.1, selectCols [cn, cd] r.2))) =
        if sumCol rows cn = 0 then PFloat.nan
        else if 0 < sumCol rows cn then PFloat.inf else PFloat.ninf := by
      unfold ratio
      rw [hd2, hn2, if_pos hden]
    constructor
    · constructor
      · rintro ⟨v, hv⟩
        rw [seriesData_mem] at hv
        obtain ⟨_, hveq, hvnan⟩ := hv
        dsimp only at hveq
        rw [hbr, hval] at hveq
        intro h0
        rw [if_pos h0] at hveq
        exact hvnan hveq
      · intro h0
        refine ⟨if 0 < sumCol rows cn then PFloat.inf else PFloat.ninf, ?_⟩
        rw [seriesData_mem]
        refine ⟨hk, ?_, ?_⟩
        · show _ = ratio cn cd _
          rw [hbr, hval, if_neg h0]
        · split <;> exact fun hc => by cases hc
    · intro v hv
      rw [seriesData_mem] at hv
      obtain ⟨_, hveq, hvnan⟩ := hv
      dsimp only at hveq
      rw [hbr, hval] at hveq
      by_cases h0 : sumCol rows cn = 0
      · rw [if_pos h0] at hveq
        exact absurd hveq hvnan
      · rw [if_neg h0] at hveq
        subst hveq
        split
        · exact Or.inl rfl
        · exact Or.inr rfl

theorem claim4_ratio_zero_denominator_witness :
    sumCol [((⟨⟨2, 3, 4⟩, 0⟩ : DateTime), [("n", some (1 : Int)), ("d", some 0)])] "d" = 0 ∧
    (ratio "n" "d" [((⟨⟨2, 3, 4⟩, 0⟩ : DateTime), [("n", some (1 : Int)), ("d", some 0)])] =
      if sumCol [((⟨⟨2, 3, 4⟩, 0⟩ : DateTime), [("n", some (1 : Int)), ("d", some 0)])] "n" = 0
      then PFloat.nan
      else if 0 < sumCol [((⟨⟨2, 3, 4⟩, 0⟩ : DateTime), [("n", some (1 : Int)), ("d", some 0)])] "n"
      then PFloat.inf else PFloat.ninf) ∧
    (∀ q : ℚ, ratio "n" "d"
      [((⟨⟨2, 3, 4⟩, 0⟩ : DateTime), [("n", some (1 : Int)), ("d", some 0)])] ≠ PFloat.num q) :=
  ⟨by decide,
   (claim4_ratio_zero_denominator "n" "d"
     [((⟨⟨2, 3, 4⟩, 0⟩ : DateTime), [("n", some (1 : Int)), ("d", some 0)])] (by decide)).1,
   (claim4_ratio_zero_denominator "n" "d"
     [((⟨⟨2, 3, 4⟩, 0⟩ : DateTime), [("n", some (1 : Int)), ("d", some 0)])] (by decide)).2.1⟩

theorem avg_daily_nan_of_all_none (xs : List (DateTime × Option Int))
    (hall : ∀ p ∈ xs, p.2 = none) : avg_daily xs = PFloat.nan := by
  have hnil : xs.filterMap (fun p => p.2.map (fun v => (p.1, v))) = [] := by
    rw [List.filterMap_eq_nil_iff]
    intro p hp
    rw [hall p hp]
    rfl
  unfold avg_daily
  rw [hnil]
  rfl

theorem maxD_isSome (l : List DateTime) (h : l ≠ []) : ∃ m, maxD l = some m := by
  cases l with
  | nil => exact absurd rfl h
  | cons x xs => exact ⟨_, rfl⟩

theorem minD_isSome (l : List DateTime) (h : l ≠ []) : ∃ m, minD l = some m := by
  cases l with
  | nil => exact absurd rfl h
  | cons x xs => exact ⟨_, rfl⟩

theorem filterMap_pairs_map_snd (xs : List (DateTime × Option Int)) :
    ((xs.filterMap (fun p => p.2.map (fun v => (p.1, v)))).map (fun p => p.2)) =
      xs.filterMap (fun p => p.2) := by
  induction xs with
  | nil => rfl
  | cons p ps ih =>
    cases hp : p.2 <;> simp [List.filterMap_cons, hp, ih]

theorem avg_daily_single_day (xs : List (DateTime × Option Int)) (d : Date)
    (hd : ∀ p ∈ xs, p.2 ≠ none → p.1.date = d ∧ p.1.Valid)
    (hex : ∃ p ∈ xs, p.2 ≠ none) :
    avg_daily xs = PFloat.num ((((xs.filterMap (fun p => p.2)).sum : Int) : ℚ)) := by
  have hmemdates : ∀ x ∈ (xs.filterMap (fun p => p.2.map (fun v => (p.1, v)))).map
      (fun p => p.1), x.date = d ∧ x.Valid := by
    intro x hx
    rw [List.mem_map] at hx
    obtain ⟨q, hq, hqx⟩ := hx
    rw [List.mem_filterMap] at hq
    obtain ⟨p, hp, hpq⟩ := hq
    cases hp2 : p.2 with
    | none => rw [hp2] at hpq; cases hpq
    | some v =>
      rw [hp2] at hpq
      simp only [Option.map_some', Option.some.injEq] at hpq
      have := hd p hp (by rw [hp2]; exact fun hc => by cases hc)
      rw [← hqx, ← hpq]
      exact this
  have hne : (xs.filterMap (fun p => p.2.map (fun v => (p.1, v)))).map (fun p => p.1) ≠ [] := by
    obtain ⟨p, hp, hpne⟩ := hex
    cases hp2 : p.2 with
    | none => exact absurd hp2 hpne
    | some v =>
      exact List.ne_nil_of_mem (List.mem_map.mpr
        ⟨(p.1, v), List.mem_filterMap.mpr ⟨p, hp, by rw [hp2]; rfl⟩, rfl⟩)
  obtain ⟨mx, hmx⟩ := maxD_isSome _ hne
  obtain ⟨mn, hmn⟩ := minD_isSome _ hne
  have hmxd := hmemdates mx (maxD_mem _ mx hmx)
  have hmnd := hmemdates mn (minD_mem _ mn hmn)
  have hle := minD_le _ mn hmn mx (maxD_mem _ mx hmx)
  have hdiff : diffDays mx mn = 0 := by
    unfold diffDays toSecs
    rw [hmxd.1, hmnd.1]
    have h1 := hmxd.2.2
    have h2 := hmnd.2.2
    unfold toSecs at hle
    rw [hmxd.1, hmnd.1] at hle
    omega
  unfold avg_daily
  rw [hmx, hmn]
  dsimp only
  rw [hdiff, filterMap_pairs_map_snd]
  norm_num

/-- C6: `avg_daily` over an all-missing bucket yields NaN (Python returns
`None`; the pipeline drops the bucket, it is no error and no zero), and
over a bucket whose non-missing rows all fall on one valid calendar day it
returns the sum of those values unchanged (the inclusive day span is 1). -/
theorem claim6_avg_daily (xs : List (DateTime × Option Int)) :
    ((∀ p ∈ xs, p.2 = none) → avg_daily xs = PFloat.nan) ∧
    (∀ d : Date, (∀ p ∈ xs, p.2 ≠ none → p.1.date = d ∧ p.1.Valid) →
      (∃ p ∈ xs, p.2 ≠ none) →
      avg_daily xs = PFloat.num ((((xs.filterMap (fun p => p.2)).sum : Int) : ℚ))) ∧
    (∀ (clamp : DateTime → DateTime) (b : Bounds) (c lab : String)
       (off : Option Rel) (tbl : Table) (k : DateTime),
      (∀ r ∈ bucketRows clamp (windowedTable b ⟨[c], lab, avgDailyAgg c, off⟩ tbl) k,
        getVal r.2 c = none) →
      ∀ v, (k, v) ∉ seriesData clamp b ⟨[c], lab, avgDailyAgg c, off⟩ tbl) := by
  refine ⟨avg_daily_nan_of_all_none xs, fun d => avg_daily_single_day xs d, ?_⟩
  intro clamp b c lab off tbl k hall v hmem
  rw [seriesData_mem] at hmem
  obtain ⟨hk, hveq, hvnan⟩ := hmem
  apply hvnan
  rw [hveq]
  show avgDailyAgg c _ = PFloat.nan
  unfold avgDailyAgg
  apply avg_daily_nan_of_all_none
  intro p hp
  rw [List.mem_map] at hp
  obtain ⟨r, hr, hrp⟩ := hp
  rw [List.mem_map] at hr
  obtain ⟨r0, hr0, hrr0⟩ := hr
  rw [← hrp, ← hrr0]
  show getVal (selectCols [c] r0.2) c = none
  rw [getVal_selectCols [c] r0.2 c (by simp)]
  exact hall r0 hr0

theorem claim6_avg_daily_witness :
    ((∀ p ∈ [((⟨⟨2, 3, 4⟩, 100⟩ : DateTime), (none : Option Int))], p.2 = none) →
      avg_daily [((⟨⟨2, 3, 4⟩, 100⟩ : DateTime), (none : Option Int))] = PFloat.nan) ∧
    avg_daily [((⟨⟨2, 3, 4⟩, 100⟩ : DateTime), (none : Option Int))] = PFloat.nan ∧
    avg_daily [((⟨⟨2, 3, 4⟩, 100⟩ : DateTime), some (5 : Int)),
               ((⟨⟨2, 3, 4⟩, 200⟩ : DateTime), some (7 : Int))] =
      PFloat.num (((([((⟨⟨2, 3, 4⟩, 100⟩ : DateTime), some (5 : Int)),
               ((⟨⟨2, 3, 4⟩, 200⟩ : DateTime), some (7 : Int))].filterMap
        (fun p => p.2)).sum : Int) : ℚ)) ∧
    ((⟨⟨2, 3, 4⟩, 0⟩, PFloat.num 0) ∉ seriesData dailyClamp
      ⟨⟨⟨2, 3, 1⟩, 0⟩, ⟨⟨2, 3, 8⟩, 0⟩⟩ ⟨["x"], "x", avgDailyAgg "x", none⟩
      [(⟨⟨2, 3, 4⟩, 0⟩, [("x", none)])]) := by
  refine ⟨(claim6_avg_daily _).1, (claim6_avg_daily _).1 (by decide), ?_, ?_⟩
  · exact (claim6_avg_daily _).2.1 ⟨2, 3, 4⟩
      (by
        intro p hp hpne
        rcases List.mem_cons.mp hp with rfl | hp'
        · exact ⟨rfl, by decide⟩
        · rcases List.mem_cons.mp hp' with rfl | hp''
          · exact ⟨rfl, by decide⟩
          · cases hp'')
      ⟨_, List.mem_cons_self _ _, by decide⟩
  · exact (claim6_avg_daily []).2.2 dailyClamp
      ⟨⟨⟨2, 3, 1⟩, 0⟩, ⟨⟨2, 3, 8⟩, 0⟩⟩ "x" "x" none
      [(⟨⟨2, 3, 4⟩, 0⟩, [("x", none)])] ⟨⟨2, 3, 4⟩, 0⟩
      (by decide) (PFloat.num 0)

theorem timeWindow_true_iff (b : Bounds) (t : DateTime) :
    timeWindow b t = true ↔ (DateTime.le b.earliest t ∧ DateTime.lt t b.latest) := by
  unfold timeWindow
  rw [Bool.and_eq_true, decide_eq_true_eq, decide_eq_true_eq]

theorem mem_clampKeys (clamp : DateTime → DateTime) (rows : Table) (k : DateTime) :
    k ∈ clampKeys clamp rows ↔ ∃ r, r ∈ rows ∧ clamp r.1 = k := by
  unfold clampKeys
  rw [List.mem_dedup, List.mem_map]

theorem mem_outKeys (clamp : DateTime → DateTime) (b : Bounds) (s : Series)
    (tbl : Table) (x : DateTime) :
    x ∈ (seriesData clamp b s tbl).map (fun p => p.1) ↔
      ∃ v, (x, v) ∈ seriesData clamp b s tbl := by
  rw [List.mem_map]
  constructor
  · rintro ⟨p, hp, rfl⟩
    exact ⟨p.2, hp⟩
  · rintro ⟨v, hv⟩
    exact ⟨(x, v), hv, rfl⟩

theorem applyRel12_valid (t : DateTime) (h : t.Valid) :
    (applyRel ⟨12, 0⟩ t).Valid := by
  have hm : (addMonthsD t.date 12).Valid := addMonthsD_valid t.date 12 h.1 (by
    unfold monthsTot
    have h1 := h.1.1
    have h2 := h.1.2.1
    omega)
  have hd := addDaysD_spec (addMonthsD t.date 12) 0 (by
    have := toOrdinal_pos _ hm
    omega)
  exact ⟨hd.1, h.2⟩

/-- For a Daily panel whose bounds' `latest` is a midnight and whose
aggregation never yields NaN, the maximum bucket of the series output is
the day before `latest`, provided the (shifted) table has a valid row in
the window's last day and all its (shifted) rows are valid. -/
theorem dailySeries_outMax (b : Bounds) (s : Series) (tbl : Table) (Ld : Date)
    (hLd : (⟨Ld, 0⟩ : DateTime).Valid)
    (hlatest : b.latest = ⟨Ld, 0⟩)
    (hnan : ∀ rows, s.agg rows ≠ PFloat.nan)
    (hvalshift : ∀ r ∈ shiftTable s tbl, (r : DateTime × Rows).1.Valid)
    (hexists : ∃ r ∈ shiftTable s tbl, timeWindow b r.1 = true ∧
      toOrdinal (r : DateTime × Rows).1.date + 1 = toOrdinal Ld) :
    outMax (seriesData dailyClamp b s tbl) =
      some ⟨fromOrdinal (toOrdinal Ld - 1), 0⟩ := by
  obtain ⟨r0, hr0mem, hr0win, hr0ord⟩ := hexists
  have hr0val := hvalshift r0 hr0mem
  have hLd2 : 2 ≤ toOrdinal Ld := by
    have := toOrdinal_pos r0.1.date hr0val.1
    omega
  have hrt := toOrdinal_fromOrdinal (toOrdinal Ld - 1) (by omega)
  have haval : ((⟨fromOrdinal (toOrdinal Ld - 1), 0⟩ : DateTime)).Valid :=
    ⟨hrt.1, by show (0 : Nat) < 86400; omega⟩
  -- every windowed row's clamp lies on a day strictly before `latest`
  have hkey : ∀ r ∈ windowedTable b s tbl,
      (dailyClamp (r : DateTime × Rows).1).Valid ∧
      toOrdinal (dailyClamp (r : DateTime × Rows).1).date + 1 ≤ toOrdinal Ld := by
    intro r hr
    unfold windowedTable at hr
    rw [List.mem_filter] at hr
    have hval := hvalshift r hr.1
    have hwin := (timeWindow_true_iff b r.1).mp hr.2
    have hlt := (toSecs_lt_iff r.1 b.latest hval (by rw [hlatest]; exact hLd)).mp hwin.2
    rw [hlatest] at hlt
    unfold toSecs at hlt
    dsimp only at hlt
    have hsec := hval.2
    constructor
    · exact ⟨hval.1, by show (0 : Nat) < 86400; omega⟩
    · show toOrdinal r.1.date + 1 ≤ toOrdinal Ld
      omega
  -- the day before `latest` is a bucket of the output
  have hr0winmem : r0 ∈ windowedTable b s tbl := by
    unfold windowedTable
    rw [List.mem_filter]
    exact ⟨hr0mem, hr0win⟩
  have hkeq : dailyClamp r0.1 = ⟨fromOrdinal (toOrdinal Ld - 1), 0⟩ := by
    show (⟨⟨r0.1.date.year, r0.1.date.month, r0.1.date.day⟩, 0⟩ : DateTime) = _
    have : fromOrdinal (toOrdinal Ld - 1) = r0.1.date := by
      have : toOrdinal Ld - 1 = toOrdinal r0.1.date := by omega
      rw [this]
      exact fromOrdinal_toOrdinal r0.1.date hr0val.1
    rw [this]
  have hamem : (⟨fromOrdinal (toOrdinal Ld - 1), 0⟩ : DateTime) ∈
      clampKeys dailyClamp (windowedTable b s tbl) := by
    rw [mem_clampKeys]
    exact ⟨r0, hr0winmem, hkeq⟩
  unfold outMax
  apply maxD_eq_of
  · rw [mem_outKeys]
    refine ⟨_, (seriesData_mem dailyClamp b s tbl _ _).mpr ⟨hamem, rfl, hnan _⟩⟩
  · intro x hx
    rw [mem_outKeys] at hx
    obtain ⟨v, hv⟩ := hx
    obtain ⟨hxk, -, -⟩ := (seriesData_mem dailyClamp b s tbl _ _).mp hv
    rw [mem_clampKeys] at hxk
    obtain ⟨r, hrmem, hrk⟩ := hxk
    obtain ⟨hkv, hkord⟩ := hkey r hrmem
    rw [← hrk]
    show 86400 * toOrdinal (dailyClamp r.1).date + (dailyClamp r.1).sec ≤
      86400 * toOrdinal (fromOrdinal (toOrdinal Ld - 1)) + 0
    have hsec0 : (dailyClamp r.1).sec = 0 := rfl
    have := hrt.2
    omega
  · intro x hx hxsec
    rw [mem_outKeys] at hx
    obtain ⟨v, hv⟩ := hx
    obtain ⟨hxk, -, -⟩ := (seriesData_mem dailyClamp b s tbl _ _).mp hv
    rw [mem_clampKeys] at hxk
    obtain ⟨r, hrmem, hrk⟩ := hxk
    obtain ⟨hkv, hkord⟩ := hkey r hrmem
    rw [← hrk] at hxsec ⊢
    exact DateTime.eq_of_toSecs_eq _ _ hkv haval hxsec

/-- C9 counterexample: with rows only at 0002-01-08 and 0003-01-09, the
anchor series is empty after windowing (the reference day itself is
excluded by the half-open window) while the +12-month offset series still
has a bucket, so the two maxima differ. -/
theorem claim9_counterexample :
    dailyBounds ⟨[⟨["a"], "x", npSum, none⟩, ⟨["a"], "y", npSum, some ⟨12, 0⟩⟩], 7, none⟩ 7
      [(⟨⟨2, 1, 8⟩, 0⟩, [("a", some 1)]), (⟨⟨3, 1, 9⟩, 0⟩, [("a", some 1)])] =
      some ⟨⟨⟨3, 1, 2⟩, 0⟩, ⟨⟨3, 1, 9⟩, 0⟩⟩ ∧
    outMax (seriesData dailyClamp ⟨⟨⟨3, 1, 2⟩, 0⟩, ⟨⟨3, 1, 9⟩, 0⟩⟩
      ⟨["a"], "x", npSum, none⟩
      [(⟨⟨2, 1, 8⟩, 0⟩, [("a", some 1)]), (⟨⟨3, 1, 9⟩, 0⟩, [("a", some 1)])]) = none ∧
    outMax (seriesData dailyClamp ⟨⟨⟨3, 1, 2⟩, 0⟩, ⟨⟨3, 1, 9⟩, 0⟩⟩
      ⟨["a"], "y", npSum, some ⟨12, 0⟩⟩
      [(⟨⟨2, 1, 8⟩, 0⟩, [("a", some 1)]), (⟨⟨3, 1, 9⟩, 0⟩, [("a", some 1)])]) =
      some ⟨⟨3, 1, 8⟩, 0⟩ ∧
    outMax (seriesData dailyClamp ⟨⟨⟨3, 1, 2⟩, 0⟩, ⟨⟨3, 1, 9⟩, 0⟩⟩
      ⟨["a"], "x", npSum, none⟩
      [(⟨⟨2, 1, 8⟩, 0⟩, [("a", some 1)]), (⟨⟨3, 1, 9⟩, 0⟩, [("a", some 1)])]) ≠
    outMax (seriesData dailyClamp ⟨⟨⟨3, 1, 2⟩, 0⟩, ⟨⟨3, 1, 9⟩, 0⟩⟩
      ⟨["a"], "y", npSum, some ⟨12, 0⟩⟩
      [(⟨⟨2, 1, 8⟩, 0⟩, [("a", some 1)]), (⟨⟨3, 1, 9⟩, 0⟩, [("a", some 1)])]) := by decide

/-- C9 (amended): for a Daily panel over `np.sum` series, if the table
has a valid in-window row on the day before `latest` and a valid row whose
+12-month shift lands in-window on the day before `latest`, then the
anchor series and the +12-month offset series have the same maximum bucket
timestamp (the day before `latest`): the offset series is shifted before
filtering and is truncated to the same trailing edge. -/
theorem claim9_offset_alignment
    (cols : List String) (l1 l2 : String) (tbl : Table) (b : Bounds) (Ld : Date)
    (hLd : (⟨Ld, 0⟩ : DateTime).Valid)
    (hlatest : b.latest = ⟨Ld, 0⟩)
    (hval : ∀ r ∈ tbl, (r : DateTime × Rows).1.Valid)
    (h1 : ∃ r ∈ tbl, timeWindow b (r : DateTime × Rows).1 = true ∧
      toOrdinal (r : DateTime × Rows).1.date + 1 = toOrdinal Ld)
    (h2 : ∃ r ∈ tbl, timeWindow b (applyRel ⟨12, 0⟩ (r : DateTime × Rows).1) = true ∧
      toOrdinal (applyRel ⟨12, 0⟩ (r : DateTime × Rows).1).date + 1 = toOrdinal Ld) :
    outMax (seriesData dailyClamp b ⟨cols, l1, npSum, none⟩ tbl) =
      some ⟨fromOrdinal (toOrdinal Ld - 1), 0⟩ ∧
    outMax (seriesData dailyClamp b ⟨cols, l2, npSum, some ⟨12, 0⟩⟩ tbl) =
      some ⟨fromOrdinal (toOrdinal Ld - 1), 0⟩ ∧
    outMax (seriesData dailyClamp b ⟨cols, l1, npSum, none⟩ tbl) =
      outMax (seriesData dailyClamp b ⟨cols, l2, npSum, some ⟨12, 0⟩⟩ tbl) := by
  have hnan : ∀ rows, npSum rows ≠ PFloat.nan := by
    intro rows hc
    simp [npSum] at hc
  have ha : outMax (seriesData dailyClamp b ⟨cols, l1, npSum, none⟩ tbl) =
      some ⟨fromOrdinal (toOrdinal Ld - 1), 0⟩ := by
    refine dailySeries_outMax b ⟨cols, l1, npSum, none⟩ tbl Ld hLd hlatest hnan ?_ ?_
    · intro r hr
      rw [show shiftTable ⟨cols, l1, npSum, none⟩ tbl = tbl from rfl] at hr
      exact hval r hr
    · rw [show shiftTable ⟨cols, l1, npSum, none⟩ tbl = tbl from rfl]
      exact h1
  have hb2 : outMax (seriesData dailyClamp b ⟨cols, l2, npSum, some ⟨12, 0⟩⟩ tbl) =
      some ⟨fromOrdinal (toOrdinal Ld - 1), 0⟩ := by
    refine dailySeries_outMax b ⟨cols, l2, npSum, some ⟨12, 0⟩⟩ tbl Ld hLd hlatest hnan ?_ ?_
    · intro r hr
      rw [show shiftTable ⟨cols, l2, npSum, some ⟨12, 0⟩⟩ tbl =
        tbl.map (fun r => (applyRel ⟨12, 0⟩ r.1, r.2)) from rfl, List.mem_map] at hr
      obtain ⟨r0, hr0, rfl⟩ := hr
      exact applyRel12_valid r0.1 (hval r0 hr0)
    · rw [show shiftTable ⟨cols, l2, npSum, some ⟨12, 0⟩⟩ tbl =
        tbl.map (fun r => (applyRel ⟨12, 0⟩ r.1, r.2)) from rfl]
      obtain ⟨r0, hr0, hwin, hord⟩ := h2
      exact ⟨(applyRel ⟨12, 0⟩ r0.1, r0.2), List.mem_map.mpr ⟨r0, hr0, rfl⟩, hwin, hord⟩
  exact ⟨ha, hb2, by rw [ha, hb2]⟩

theorem claim9_offset_alignment_witness :
    (∀ r ∈ [((⟨⟨3, 1, 7⟩, 0⟩ : DateTime), [("a", some (2 : Int))]),
            ((⟨⟨2, 1, 7⟩, 0⟩ : DateTime), [("a", some (5 : Int))])],
      (r : DateTime × Rows).1.Valid) ∧
    (∃ r ∈ [((⟨⟨3, 1, 7⟩, 0⟩ : DateTime), [("a", some (2 : Int))]),
            ((⟨⟨2, 1, 7⟩, 0⟩ : DateTime), [("a", some (5 : Int))])],
      timeWindow ⟨⟨⟨3, 1, 1⟩, 0⟩, ⟨⟨3, 1, 8⟩, 0⟩⟩ (r : DateTime × Rows).1 = true ∧
      toOrdinal (r : DateTime × Rows).1.date + 1 = toOrdinal ⟨3, 1, 8⟩) ∧
    (∃ r ∈ [((⟨⟨3, 1, 7⟩, 0⟩ : DateTime), [("a", some (2 : Int))]),
            ((⟨⟨2, 1, 7⟩, 0⟩ : DateTime), [("a", some (5 : Int))])],
      timeWindow ⟨⟨⟨3, 1, 1⟩, 0⟩, ⟨⟨3, 1, 8⟩, 0⟩⟩
        (applyRel ⟨12, 0⟩ (r : DateTime × Rows).1) = true ∧
      toOrdinal (applyRel ⟨12, 0⟩ (r : DateTime × Rows).1).date + 1 = toOrdinal ⟨3, 1, 8⟩) ∧
    (outMax (seriesData dailyClamp ⟨⟨⟨3, 1, 1⟩, 0⟩, ⟨⟨3, 1, 8⟩, 0⟩⟩
        ⟨["a"], "x", npSum, none⟩
        [((⟨⟨3, 1, 7⟩, 0⟩ : DateTime), [("a", some (2 : Int))]),
         ((⟨⟨2, 1, 7⟩, 0⟩ : DateTime), [("a", some (5 : Int))])]) =
      some ⟨fromOrdinal (toOrdinal (⟨3, 1, 8⟩ : Date) - 1), 0⟩ ∧
    outMax (seriesData dailyClamp ⟨⟨⟨3, 1, 1⟩, 0⟩, ⟨⟨3, 1, 8⟩, 0⟩⟩
        ⟨["a"], "y", npSum, some ⟨12, 0⟩⟩
        [((⟨⟨3, 1, 7⟩, 0⟩ : DateTime), [("a", some (2 : Int))]),
         ((⟨⟨2, 1, 7⟩, 0⟩ : DateTime), [("a", some (5 : Int))])]) =
      some ⟨fromOrdinal (toOrdinal (⟨3, 1, 8⟩ : Date) - 1), 0⟩ ∧
    outMax (seriesData dailyClamp ⟨⟨⟨3, 1, 1⟩, 0⟩, ⟨⟨3, 1, 8⟩, 0⟩⟩
        ⟨["a"], "x", npSum, none⟩
        [((⟨⟨3, 1, 7⟩, 0⟩ : DateTime), [("a", some (2 : Int))]),
         ((⟨⟨2, 1, 7⟩, 0⟩ : DateTime), [("a", some (5 : Int))])]) =
      outMax (seriesData dailyClamp ⟨⟨⟨3, 1, 1⟩, 0⟩, ⟨⟨3, 1, 8⟩, 0⟩⟩
        ⟨["a"], "y", npSum, some ⟨12, 0⟩⟩
        [((⟨⟨3, 1, 7⟩, 0⟩ : DateTime), [("a", some (2 : Int))]),
         ((⟨⟨2, 1, 7⟩, 0⟩ : DateTime), [("a", some (5 : Int))])])) :=
  ⟨by decide, by decide, by decide,
   claim9_offset_alignment ["a"] "x" "y"
     [((⟨⟨3, 1, 7⟩, 0⟩ : DateTime), [("a", some (2 : Int))]),
      ((⟨⟨2, 1, 7⟩, 0⟩ : DateTime), [("a", some (5 : Int))])]
     ⟨⟨⟨3, 1, 1⟩, 0⟩, ⟨⟨3, 1, 8⟩, 0⟩⟩ ⟨3, 1, 8⟩
     (by decide) rfl (by decide) (by decide) (by decide)⟩

end Nooda
